import Mathlib

/-!
Verification of `src/Agents/mcp_server_manager.py` (class `MCPServerManager`).

The Python class keeps three pieces of mutable state: `_servers` (a dict from
server name to a connected `MCPServerStdio` handle), `_tools` (a dict from
server name to the last fetched tool list), and `_config` (the parsed YAML
configuration).  All external effects (connecting a handle, fetching its tool
list, cleaning it up, reading the configuration file) belong to collaborators
outside this repository; here each operation takes the outcome of those
external calls as an explicit argument, and the registry state is threaded
explicitly.  An event trace is recorded in the state so that trace-level
properties (which names were ever passed to `add_server`, which tool lists
were fetched last, whether a handle was ever cleaned up) can be stated.

Python dictionaries are modelled as association lists with Python's update
semantics: assignment replaces in place when the key is present and appends
otherwise; deletion removes the key; lookup returns the first match.
-/

/-- Opaque tool descriptor (an item of the list returned by `list_tools`). -/
abbrev Tool := Nat

/-- The `params` sub-dictionary of one configuration entry
(`command` plus `args`; further keys are irrelevant to the manager). -/
structure ServerParams where
  command : String
  args : List String
  deriving DecidableEq

/-- One entry of the `servers` mapping of the configuration file.
`params = none` models an entry whose dictionary lacks the `params` key
(line 31 of the source indexes `server_config['params']` directly, so the
absence of the key raises).  `cache_tools_list = none` models an entry that
omits the optional `cache_tools_list` key. -/
structure ServerEntry where
  params : Option ServerParams
  cache_tools_list : Option Bool
  deriving DecidableEq

/-- The parsed YAML configuration (`self._config`).  `pynone` is the Python
value `None` (an empty YAML document); `pydict servers extra` is a dict whose
`servers` key holds the given entries when present, with `extra` counting the
other top-level keys (needed only for Python truthiness of the dict). -/
inductive PyConfig where
  | pynone : PyConfig
  | pydict (servers : Option (List (String × ServerEntry))) (extra : Nat) : PyConfig
  deriving DecidableEq

/-- Python truthiness of the stored configuration, as tested by
`if not self._config:` on line 25 — `None` and the empty dict are falsy. -/
def PyConfig.isTruthy : PyConfig → Bool
  | .pynone => false
  | .pydict s extra => s.isSome || decide (extra ≠ 0)

/-- A constructed `MCPServerStdio` handle.  `hid` is an identity tag letting
distinct handles for the same name be told apart. -/
structure Handle where
  name : String
  params : ServerParams
  cacheToolsList : Bool
  hid : Nat
  deriving DecidableEq

/-- Python exceptions that can cross the boundaries modelled here. -/
inductive Err where
  | configError (code : Nat) : Err
  | keyError : Err
  | attributeError : Err
  | connectFail (code : Nat) : Err
  | fetchFail (code : Nat) : Err
  | cleanupFail (code : Nat) : Err
  deriving DecidableEq

/-- Trace events recorded by the operations: configuration loads (with the
explicit path, or `none` for the default path), invocations of `add_server`,
successful tool fetches, and the shutdown calls issued by `close`. -/
inductive Event where
  | loadConfig (path : Option String) : Event
  | addCall (name : String) : Event
  | fetched (name : String) (tools : List Tool) : Event
  | cleanup (name : String) (hid : Nat) : Event
  | terminate (name : String) (hid : Nat) : Event
  | kill (name : String) (hid : Nat) : Event
  deriving DecidableEq

/-- The mutable state of one `MCPServerManager` instance, plus the recorded
event trace. -/
structure State where
  servers : List (String × Handle)
  tools : List (String × List Tool)
  config : PyConfig
  events : List Event
  deriving DecidableEq

/-- The state built by `MCPServerManager.__init__`: empty dicts all around. -/
def initState : State :=
  { servers := [], tools := [], config := PyConfig.pydict none 0, events := [] }

/-- Python dict lookup (`d.get(k)`). -/
def dictGet {α : Type} (d : List (String × α)) (k : String) : Option α :=
  match d with
  | [] => none
  | p :: rest => if p.1 = k then some p.2 else dictGet rest k

/-- Python dict assignment (`d[k] = v`): replace in place when the key is
present, append otherwise. -/
def dictSet {α : Type} (d : List (String × α)) (k : String) (v : α) :
    List (String × α) :=
  if (dictGet d k).isSome then
    d.map (fun p => if p.1 = k then (k, v) else p)
  else
    d ++ [(k, v)]

/-- Python dict deletion (`del d[k]`). -/
def dictDel {α : Type} (d : List (String × α)) (k : String) :
    List (String × α) :=
  d.filter (fun p => decide (p.1 ≠ k))

/-- `load_config` (source lines 13–21).  `path` is the argument
(`none` = default path), `res` is what reading and parsing the file produced:
an exception or a parsed document.  The load event is recorded before the
outcome is examined, because the call happened either way. -/
def load_config (path : Option String) (res : Except Err PyConfig)
    (st : State) : State × Option Err :=
  let st1 := { st with events := st.events ++ [Event.loadConfig path] }
  match res with
  | .error e => (st1, some e)
  | .ok cfg => ({ st1 with config := cfg }, none)

/-- Outcome of the external calls made on behalf of one server entry:
whether `server.connect()` raised, and what `server.list_tools()` did. -/
structure EntryBeh where
  connect : Option Err
  fetch : Except Err (List Tool)

/-- `add_server` (source lines 47–62).  `connectRes` and `fetchRes` are the
outcomes of `server.connect()` and `server.list_tools()` for this call.  On
success the handle and then its tool list are stored; on any exception the
name is deleted from `_servers` (if present) and the exception is re-raised. -/
def add_server (connectRes : Option Err) (fetchRes : Except Err (List Tool))
    (name : String) (server : Handle) (st : State) : State × Option Err :=
  let st0 := { st with events := st.events ++ [Event.addCall name] }
  match connectRes with
  | some e => ({ st0 with servers := dictDel st0.servers name }, some e)
  | none =>
      let st1 := { st0 with servers := dictSet st0.servers name server }
      match fetchRes with
      | .error e => ({ st1 with servers := dictDel st1.servers name }, some e)
      | .ok ts =>
          ({ st1 with tools := dictSet st1.tools name ts,
                      events := st1.events ++ [Event.fetched name ts] }, none)

/-- The `MCPServerStdio(...)` construction on source lines 33–37:
`params` defaults to the empty dict, `cache_tools_list` defaults to `True`. -/
def mkHandle (name : String) (entry : ServerEntry) : Handle :=
  { name := name,
    params := entry.params.getD { command := "", args := [] },
    cacheToolsList := entry.cache_tools_list.getD true,
    hid := 0 }

/-- The per-entry loop of `initialize_servers` (source lines 29–43).  For each
entry, line 31 first indexes `server_config['params']`, which raises an
uncaught `KeyError` when the key is absent and aborts the whole loop; then the
handle is constructed and `add_server` is awaited inside `try`/`except`, so
its failures are swallowed and the loop continues. -/
def initGo (beh : String → EntryBeh) :
    List (String × ServerEntry) → State → State × Option Err
  | [], st => (st, none)
  | (name, entry) :: rest, st =>
      match entry.params with
      | none => (st, some Err.keyError)
      | some _ =>
          let r := add_server (beh name).connect (beh name).fetch name
            (mkHandle name entry) st
          initGo beh rest r.1

/-- `initialize_servers` (source lines 23–45).  When the stored configuration
is falsy it first calls `load_config()` with the default path (`loadRes` is
what that load would produce).  It then iterates
`self._config.get('servers', {})`; calling `.get` on `None` raises. -/
def initialize_servers (loadRes : Except Err PyConfig)
    (beh : String → EntryBeh) (st : State) : State × Option Err :=
  let step1 : State × Option Err :=
    if st.config.isTruthy then (st, none) else load_config none loadRes st
  match step1.2 with
  | some e => (step1.1, some e)
  | none =>
      match step1.1.config with
      | .pynone => (step1.1, some Err.attributeError)
      | .pydict s _ => initGo beh (s.getD []) step1.1

/-- `get_server` (source lines 64–66): pure lookup in `_servers`. -/
def get_server (name : String) (st : State) : Option Handle :=
  dictGet st.servers name

/-- `get_server_tools` (source lines 77–79): pure lookup in `_tools`. -/
def get_server_tools (name : String) (st : State) : Option (List Tool) :=
  dictGet st.tools name

/-- The loop of `refresh_tools` (source lines 84–91): for each registered
server, re-fetch its tools; on success replace the cached entry and record
the fetch, on an exception leave the cache untouched and continue. -/
def refreshGo (beh : String → Except Err (List Tool)) :
    List (String × Handle) → State → State
  | [], st => st
  | (name, _) :: rest, st =>
      match beh name with
      | .ok ts =>
          refreshGo beh rest
            { st with tools := dictSet st.tools name ts,
                      events := st.events ++ [Event.fetched name ts] }
      | .error _ => refreshGo beh rest st

/-- `refresh_tools` (source lines 81–91).  Every per-server exception is
caught inside the loop, so the call as a whole always returns. -/
def refresh_tools (beh : String → Except Err (List Tool)) (st : State) :
    State :=
  refreshGo beh st.servers st

/-- Outcome of the external shutdown calls for one server during `close`:
whether `cleanup()` raised, whether the handle exposes a live raw process,
whether `terminate()` raised, whether the process was still alive after the
grace period, and whether `kill()` raised. -/
structure ShutBeh where
  cleanupErr : Option Err
  hasProcess : Bool
  terminateErr : Option Err
  stillAlive : Bool
  killErr : Option Err

/-- The shutdown calls `close` issues for one server (source lines 97–114):
`cleanup()` always; when it raises and a raw process is exposed, `terminate()`;
when `terminate()` did not raise and the process is still alive, `kill()`.
Every exception along the way is caught. -/
def closeEvents (b : ShutBeh) (name : String) (h : Handle) : List Event :=
  match b.cleanupErr with
  | none => [Event.cleanup name h.hid]
  | some _ =>
      [Event.cleanup name h.hid] ++
        (if b.hasProcess then
          [Event.terminate name h.hid] ++
            (match b.terminateErr with
             | some _ => []
             | none => if b.stillAlive then [Event.kill name h.hid] else [])
        else [])

/-- The loop of `close` (source lines 96–117) over a snapshot of
`_servers.items()`: per server, issue the shutdown calls (all exceptions
caught) and in the `finally` block delete the name from `_servers`. -/
def closeGo (beh : String → ShutBeh) :
    List (String × Handle) → State → State
  | [], st => st
  | (name, h) :: rest, st =>
      closeGo beh rest
        { st with servers := dictDel st.servers name,
                  events := st.events ++ closeEvents (beh name) name h }

/-- `close` (source lines 93–119): run the shutdown loop over the snapshot of
`_servers`, then clear `_tools` entirely.  All per-server exceptions are
caught inside the loop, so the call always returns. -/
def close (beh : String → ShutBeh) (st : State) : State :=
  let st1 := closeGo beh st.servers st
  { st1 with tools := [] }

/-- One invocation of a state-mutating public operation, with arbitrary
outcomes of the external calls it makes. -/
inductive Step : State → State → Prop
  | load (st : State) (path : Option String) (res : Except Err PyConfig) :
      Step st (load_config path res st).1
  | init (st : State) (loadRes : Except Err PyConfig)
      (beh : String → EntryBeh) :
      Step st (initialize_servers loadRes beh st).1
  | add (st : State) (c : Option Err) (f : Except Err (List Tool))
      (name : String) (h : Handle) :
      Step st (add_server c f name h st).1
  | refresh (st : State) (beh : String → Except Err (List Tool)) :
      Step st (refresh_tools beh st)
  | closeStep (st : State) (beh : String → ShutBeh) :
      Step st (close beh st)

/-- States reachable from a freshly constructed manager through the public
operations. -/
def Reachable (st : State) : Prop :=
  Relation.ReflTransGen Step initState st

/-- Whether the trace records an `add_server` invocation for `name`
(`initialize_servers` reaches `add_server` for every entry it processes). -/
def hasAddCall (name : String) (evs : List Event) : Bool :=
  evs.any (fun e =>
    match e with
    | .addCall n => decide (n = name)
    | _ => false)

/-- One step of the scan that computes the last recorded fetch for `name`. -/
def fetchStep (name : String) (acc : Option (List Tool)) (e : Event) :
    Option (List Tool) :=
  match e with
  | .fetched n ts => if n = name then some ts else acc
  | _ => acc

/-- The tool list of the chronologically last successful fetch recorded for
`name`, if any. -/
def lastFetch (name : String) (evs : List Event) : Option (List Tool) :=
  evs.foldl (fetchStep name) none

/-- Whether an external `list_tools` call returned normally. -/
def exOk : Except Err (List Tool) → Bool
  | .ok _ => true
  | .error _ => false

/-- The list an external `list_tools` call returned (junk on an exception). -/
def exVal : Except Err (List Tool) → List Tool
  | .ok ts => ts
  | .error _ => []

/-- A sample connected handle used in concrete scenarios. -/
def someHandle : Handle :=
  { name := "x", params := { command := "cmd", args := [] },
    cacheToolsList := true, hid := 1 }

/-- Configuration whose first entry lacks the `params` key and whose second
entry is well-formed. -/
def cfgC1 : PyConfig :=
  PyConfig.pydict (some
    [("a", { params := none, cache_tools_list := none }),
     ("b", { params := some { command := "cmd", args := [] },
             cache_tools_list := none })]) 0

/-- External behaviour where every connect and fetch succeeds. -/
def behC1 : String → EntryBeh :=
  fun _ => { connect := none, fetch := Except.ok [5] }

/-- A well-formed configuration entry named `a`. -/
def entryC1a : ServerEntry :=
  { params := some { command := "c1", args := [] }, cache_tools_list := none }

/-- A well-formed configuration entry named `c`. -/
def entryC1c : ServerEntry :=
  { params := some { command := "c2", args := ["x"] },
    cache_tools_list := some false }

/-- Two well-formed configuration entries. -/
def entriesC1 : List (String × ServerEntry) :=
  [("a", entryC1a), ("c", entryC1c)]

/-- Behaviour where server `c` fails to connect and everything else
succeeds. -/
def behC1w : String → EntryBeh :=
  fun n => if n = "c" then
    { connect := some (Err.connectFail 1), fetch := Except.ok [] }
  else { connect := none, fetch := Except.ok [7] }

/-- A fresh manager whose configuration is already loaded with
`entriesC1`. -/
def stC1w : State :=
  { servers := [], tools := [], config := PyConfig.pydict (some entriesC1) 0,
    events := [] }

/-- The state after successfully adding server `x` with tool list `[1]`. -/
def stC2 : State := (add_server none (Except.ok [1]) "x" someHandle initState).1

/-- A valid entry for the full-success initialization scenario. -/
def entryC5a : ServerEntry :=
  { params := some { command := "ca", args := [] },
    cache_tools_list := some true }

/-- A second valid entry for the full-success initialization scenario. -/
def entryC5b : ServerEntry :=
  { params := some { command := "cb", args := ["-v"] },
    cache_tools_list := none }

/-- Two valid entries for the full-success initialization scenario. -/
def entriesC5 : List (String × ServerEntry) :=
  [("a", entryC5a), ("b", entryC5b)]

/-- Behaviour where both entries connect and fetch successfully. -/
def behC5 : String → EntryBeh :=
  fun n => if n = "a" then { connect := none, fetch := Except.ok [1, 2, 3] }
  else { connect := none, fetch := Except.ok [4] }

/-- A registry with two registered servers and their cached tools. -/
def stC6 : State :=
  { servers := [("a", someHandle), ("b", someHandle)],
    tools := [("a", [1]), ("b", [2])],
    config := PyConfig.pydict none 0, events := [] }

/-- Refresh behaviour where the fetch for `a` raises and the fetch for `b`
returns `[9]`. -/
def behC6 : String → Except Err (List Tool) :=
  fun n => if n = "a" then Except.error (Err.fetchFail 0) else Except.ok [9]

/-- A configuration entry that omits the `cache_tools_list` key. -/
def entryC8 : ServerEntry :=
  { params := some { command := "c8", args := [] }, cache_tools_list := none }

/-- Behaviour where the single entry connects and fetches successfully. -/
def behC8 : String → EntryBeh :=
  fun _ => { connect := none, fetch := Except.ok [6] }

/-- The state after successfully adding server `x` with tool list `[4]`. -/
def stC9 : State := (add_server none (Except.ok [4]) "x" someHandle initState).1

/-! ### Association-list (Python dict) lemmas -/

theorem dictGet_nil {α : Type} (k : String) :
    dictGet ([] : List (String × α)) k = none := rfl

theorem dictGet_cons {α : Type} (p : String × α) (d : List (String × α))
    (k : String) :
    dictGet (p :: d) k = if p.1 = k then some p.2 else dictGet d k := rfl

theorem dictGet_map_replace {α : Type} (d : List (String × α)) (k : String)
    (v : α) :
    dictGet (d.map (fun p => if p.1 = k then (k, v) else p)) k =
      if (dictGet d k).isSome then some v else none := by
  induction d with
  | nil => simp [dictGet]
  | cons p rest ih =>
    by_cases hp : p.1 = k
    · simp [dictGet, hp]
    · simp [dictGet, hp, ih]

theorem dictGet_map_replace_ne {α : Type} (d : List (String × α))
    (k n : String) (v : α) (hne : n ≠ k) :
    dictGet (d.map (fun p => if p.1 = k then (k, v) else p)) n =
      dictGet d n := by
  induction d with
  | nil => simp [dictGet]
  | cons p rest ih =>
    by_cases hp : p.1 = k
    · have hkn : ¬ (k = n) := fun h => hne h.symm
      simp [dictGet, hp, hkn, ih]
    · simp [dictGet, hp, ih]

theorem dictGet_append_none {α : Type} (d1 d2 : List (String × α))
    (k : String) (h : dictGet d1 k = none) :
    dictGet (d1 ++ d2) k = dictGet d2 k := by
  induction d1 with
  | nil => simp
  | cons p rest ih =>
    by_cases hp : p.1 = k
    · simp [dictGet, hp] at h
    · simp [dictGet, hp] at h ⊢
      exact ih h

theorem dictGet_append_some {α : Type} (d1 d2 : List (String × α))
    (k : String) (v : α) (h : dictGet d1 k = some v) :
    dictGet (d1 ++ d2) k = some v := by
  induction d1 with
  | nil => simp [dictGet] at h
  | cons p rest ih =>
    by_cases hp : p.1 = k
    · simp [dictGet, hp] at h ⊢
      exact h
    · simp [dictGet, hp] at h ⊢
      exact ih h

theorem dictGet_dictSet_self {α : Type} (d : List (String × α)) (k : String)
    (v : α) : dictGet (dictSet d k v) k = some v := by
  unfold dictSet
  by_cases h : (dictGet d k).isSome
  · simp [h, dictGet_map_replace]
  · have hn : dictGet d k = none := by
      cases hd : dictGet d k
      · rfl
      · simp [hd] at h
    simp [h, dictGet_append_none d [(k, v)] k hn, dictGet]

theorem dictGet_dictSet_ne {α : Type} (d : List (String × α)) (k n : String)
    (v : α) (hne : n ≠ k) : dictGet (dictSet d k v) n = dictGet d n := by
  unfold dictSet
  by_cases h : (dictGet d k).isSome
  · simp [h, dictGet_map_replace_ne d k n v hne]
  · cases hd : dictGet d n with
    | none =>
      have hkn : ¬ (k = n) := fun hh => hne hh.symm
      simp [h, dictGet_append_none d [(k, v)] n hd, dictGet, hkn]
    | some w => simp [h, dictGet_append_some d [(k, v)] n w hd]

theorem dictGet_dictDel_self {α : Type} (d : List (String × α)) (k : String) :
    dictGet (dictDel d k) k = none := by
  induction d with
  | nil => rfl
  | cons p rest ih =>
    by_cases hp : p.1 = k
    · simpa [dictDel, hp] using ih
    · simpa [dictDel, dictGet, hp] using ih

theorem dictGet_dictDel_ne {α : Type} (d : List (String × α)) (k n : String)
    (hne : n ≠ k) : dictGet (dictDel d k) n = dictGet d n := by
  induction d with
  | nil => rfl
  | cons p rest ih =>
    by_cases hp : p.1 = k
    · have hkn : ¬ (k = n) := fun hh => hne hh.symm
      simpa [dictDel, dictGet, hp, hkn] using ih
    · by_cases hn : p.1 = n
      · simp [dictDel, dictGet, List.filter_cons, hp, hn, hne]
      · simpa [dictDel, dictGet, List.filter_cons, hp, hn] using ih

theorem dictSet_of_none {α : Type} (d : List (String × α)) (k : String)
    (v : α) (h : dictGet d k = none) : dictSet d k v = d ++ [(k, v)] := by
  unfold dictSet
  simp [h]

theorem dictGet_isSome_of_mem {α : Type} {d : List (String × α)} {k : String}
    {v : α} (h : (k, v) ∈ d) : (dictGet d k).isSome = true := by
  induction d with
  | nil => simp at h
  | cons p rest ih =>
    rcases List.mem_cons.mp h with h1 | h2
    · simp [dictGet, h1.symm]
    · by_cases hp : p.1 = k
      · simp [dictGet, hp]
      · simp [dictGet, hp]
        exact ih h2

theorem mem_of_mem_dictDel {α : Type} {d : List (String × α)} {k : String}
    {p : String × α} (h : p ∈ dictDel d k) : p ∈ d ∧ p.1 ≠ k := by
  unfold dictDel at h
  have := List.mem_filter.mp h
  refine ⟨this.1, ?_⟩
  have h2 := this.2
  simpa using h2

/-! ### Event-trace lemmas -/

theorem hasAddCall_append (n : String) (l1 l2 : List Event) :
    hasAddCall n (l1 ++ l2) = (hasAddCall n l1 || hasAddCall n l2) := by
  simp [hasAddCall, List.any_append]

theorem hasAddCall_mono {n : String} {l1 : List Event} (l2 : List Event)
    (h : hasAddCall n l1 = true) : hasAddCall n (l1 ++ l2) = true := by
  simp [hasAddCall_append, h]

theorem foldl_fetchStep_of_none (n : String) (l : List Event)
    (acc : Option (List Tool)) (h : ∀ ts, Event.fetched n ts ∉ l) :
    List.foldl (fetchStep n) acc l = acc := by
  induction l generalizing acc with
  | nil => rfl
  | cons e rest ih =>
    have hstep : fetchStep n acc e = acc := by
      cases e with
      | fetched m ts2 =>
        by_cases hm : m = n
        · exfalso
          apply h ts2
          simp [hm]
        · simp [fetchStep, hm]
      | loadConfig p => rfl
      | addCall m => rfl
      | cleanup m i => rfl
      | terminate m i => rfl
      | kill m i => rfl
    rw [List.foldl_cons, hstep]
    exact ih acc (fun ts hts => h ts (List.mem_cons_of_mem _ hts))

theorem lastFetch_append_of_none (n : String) (l1 l2 : List Event)
    (h : ∀ ts, Event.fetched n ts ∉ l2) :
    lastFetch n (l1 ++ l2) = lastFetch n l1 := by
  unfold lastFetch
  rw [List.foldl_append]
  exact foldl_fetchStep_of_none n l2 _ h

theorem lastFetch_append_fetched (n : String) (l : List Event)
    (ts : List Tool) :
    lastFetch n (l ++ [Event.fetched n ts]) = some ts := by
  unfold lastFetch
  rw [List.foldl_append]
  simp [fetchStep]

/-! ### Shapes of the operations -/

theorem load_config_ok (path : Option String) (cfg : PyConfig) (st : State) :
    load_config path (Except.ok cfg) st =
      ({ st with config := cfg,
                 events := st.events ++ [Event.loadConfig path] }, none) := rfl

theorem load_config_error (path : Option String) (e : Err) (st : State) :
    load_config path (Except.error e) st =
      ({ st with events := st.events ++ [Event.loadConfig path] }, some e) := rfl

theorem add_server_connect_fail (e : Err) (f : Except Err (List Tool))
    (name : String) (h : Handle) (st : State) :
    add_server (some e) f name h st =
      ({ st with servers := dictDel st.servers name,
                 events := st.events ++ [Event.addCall name] }, some e) := rfl

theorem add_server_fetch_fail (e : Err) (name : String) (h : Handle)
    (st : State) :
    add_server none (Except.error e) name h st =
      ({ st with servers := dictDel (dictSet st.servers name h) name,
                 events := st.events ++ [Event.addCall name] }, some e) := rfl

theorem add_server_ok (ts : List Tool) (name : String) (h : Handle)
    (st : State) :
    add_server none (Except.ok ts) name h st =
      ({ st with servers := dictSet st.servers name h,
                 tools := dictSet st.tools name ts,
                 events := st.events ++
                   [Event.addCall name, Event.fetched name ts] }, none) := by
  simp [add_server]

theorem add_server_connect_fail_fst (e : Err) (f : Except Err (List Tool))
    (name : String) (h : Handle) (st : State) :
    (add_server (some e) f name h st).1 =
      { st with servers := dictDel st.servers name,
                events := st.events ++ [Event.addCall name] } := by
  rw [add_server_connect_fail]

theorem add_server_fetch_fail_fst (e : Err) (name : String) (h : Handle)
    (st : State) :
    (add_server none (Except.error e) name h st).1 =
      { st with servers := dictDel (dictSet st.servers name h) name,
                events := st.events ++ [Event.addCall name] } := by
  rw [add_server_fetch_fail]

theorem add_server_ok_fst (ts : List Tool) (name : String) (h : Handle)
    (st : State) :
    (add_server none (Except.ok ts) name h st).1 =
      { st with servers := dictSet st.servers name h,
                tools := dictSet st.tools name ts,
                events := st.events ++
                  [Event.addCall name, Event.fetched name ts] } := by
  rw [add_server_ok]

/-! ### The registry invariant and its preservation -/

/-- Invariant maintained by every public operation: every registered server
has a tool-cache entry; every cached name was passed to `add_server` at some
point; and every cached tool list is exactly the last successful fetch
recorded for that name. -/
def RegInv (st : State) : Prop :=
  (∀ n, (dictGet st.servers n).isSome = true →
    (dictGet st.tools n).isSome = true) ∧
  (∀ n, (dictGet st.tools n).isSome = true →
    hasAddCall n st.events = true) ∧
  (∀ n ts, dictGet st.tools n = some ts →
    lastFetch n st.events = some ts)

theorem inv_initState : RegInv initState := by
  refine ⟨?_, ?_, ?_⟩ <;> intro n <;> simp [initState, dictGet]

theorem inv_load (path : Option String) (res : Except Err PyConfig)
    (st : State) (h : RegInv st) : RegInv (load_config path res st).1 := by
  cases res with
  | error e =>
    rw [load_config_error]
    refine ⟨h.1, ?_, ?_⟩
    · intro n hn
      exact hasAddCall_mono _ (h.2.1 n hn)
    · intro n ts hn
      rw [lastFetch_append_of_none n _ _ (by simp)]
      exact h.2.2 n ts hn
  | ok cfg =>
    rw [load_config_ok]
    refine ⟨h.1, ?_, ?_⟩
    · intro n hn
      exact hasAddCall_mono _ (h.2.1 n hn)
    · intro n ts hn
      rw [lastFetch_append_of_none n _ _ (by simp)]
      exact h.2.2 n ts hn

theorem inv_add (c : Option Err) (f : Except Err (List Tool)) (name : String)
    (hd : Handle) (st : State) (h : RegInv st) :
    RegInv (add_server c f name hd st).1 := by
  cases c with
  | some e =>
    rw [add_server_connect_fail]
    refine ⟨?_, ?_, ?_⟩
    · intro n hn
      by_cases hname : n = name
      · rw [hname] at hn
        simp [dictGet_dictDel_self] at hn
      · rw [dictGet_dictDel_ne _ _ _ hname] at hn
        exact h.1 n hn
    · intro n hn
      exact hasAddCall_mono _ (h.2.1 n hn)
    · intro n ts hn
      rw [lastFetch_append_of_none n _ _ (by simp)]
      exact h.2.2 n ts hn
  | none =>
    cases f with
    | error e =>
      rw [add_server_fetch_fail]
      refine ⟨?_, ?_, ?_⟩
      · intro n hn
        by_cases hname : n = name
        · rw [hname] at hn
          simp [dictGet_dictDel_self] at hn
        · rw [dictGet_dictDel_ne _ _ _ hname,
            dictGet_dictSet_ne _ _ _ _ hname] at hn
          exact h.1 n hn
      · intro n hn
        exact hasAddCall_mono _ (h.2.1 n hn)
      · intro n ts hn
        rw [lastFetch_append_of_none n _ _ (by simp)]
        exact h.2.2 n ts hn
    | ok ts0 =>
      rw [add_server_ok]
      refine ⟨?_, ?_, ?_⟩
      · intro n hn
        by_cases hname : n = name
        · rw [hname]
          simp [dictGet_dictSet_self]
        · rw [dictGet_dictSet_ne _ _ _ _ hname]
          rw [dictGet_dictSet_ne _ _ _ _ hname] at hn
          exact h.1 n hn
      · intro n hn
        by_cases hname : n = name
        · rw [hasAddCall_append]
          have : hasAddCall n [Event.addCall name, Event.fetched name ts0]
              = true := by
            simp [hasAddCall, hname]
          simp [this]
        · rw [dictGet_dictSet_ne _ _ _ _ hname] at hn
          exact hasAddCall_mono _ (h.2.1 n hn)
      · intro n ts hn
        by_cases hname : n = name
        · rw [hname] at hn ⊢
          rw [dictGet_dictSet_self] at hn
          have hts : ts = ts0 := by
            exact (Option.some_inj.mp hn).symm
          rw [hts]
          have hsplit :
              st.events ++ [Event.addCall name, Event.fetched name ts0] =
                (st.events ++ [Event.addCall name]) ++
                  [Event.fetched name ts0] := by
            simp
          rw [hsplit]
          exact lastFetch_append_fetched name _ ts0
        · rw [dictGet_dictSet_ne _ _ _ _ hname] at hn
          rw [lastFetch_append_of_none n _ _ (by simp [hname])]
          exact h.2.2 n ts hn

theorem inv_initGo (beh : String → EntryBeh)
    (entries : List (String × ServerEntry)) (st : State) (h : RegInv st) :
    RegInv (initGo beh entries st).1 := by
  induction entries generalizing st with
  | nil => exact h
  | cons p rest ih =>
    obtain ⟨name, entry⟩ := p
    cases hp : entry.params with
    | none => simpa [initGo, hp] using h
    | some prm =>
      simp only [initGo, hp]
      exact ih _ (inv_add _ _ _ _ _ h)

theorem inv_initialize (loadRes : Except Err PyConfig)
    (beh : String → EntryBeh) (st : State) (h : RegInv st) :
    RegInv (initialize_servers loadRes beh st).1 := by
  unfold initialize_servers
  by_cases ht : st.config.isTruthy
  · simp only [ht, if_true]
    cases hc : st.config with
    | pynone => simpa using h
    | pydict s e => simpa using inv_initGo beh _ st h
  · simp only [ht, if_false, Bool.false_eq_true]
    cases loadRes with
    | error e => simpa [load_config_error] using inv_load none (.error e) st h
    | ok cfg =>
      have hload := inv_load none (.ok cfg) st h
      cases cfg with
      | pynone => simpa [load_config_ok] using hload
      | pydict s e =>
        simpa [load_config_ok] using
          inv_initGo beh (s.getD []) _ hload

theorem inv_refreshGo (beh : String → Except Err (List Tool))
    (l : List (String × Handle)) (st : State)
    (hsub : ∀ p ∈ l, (dictGet st.servers p.1).isSome = true) (h : RegInv st) :
    RegInv (refreshGo beh l st) := by
  induction l generalizing st with
  | nil => exact h
  | cons p rest ih =>
    obtain ⟨name, h0⟩ := p
    cases hb : beh name with
    | error e =>
      simp only [refreshGo, hb]
      exact ih st (fun q hq => hsub q (List.mem_cons_of_mem _ hq)) h
    | ok ts0 =>
      simp only [refreshGo, hb]
      apply ih
      · intro q hq
        exact hsub q (List.mem_cons_of_mem _ hq)
      · refine ⟨?_, ?_, ?_⟩
        · intro n hn
          by_cases hname : n = name
          · rw [hname]
            simp [dictGet_dictSet_self]
          · rw [dictGet_dictSet_ne _ _ _ _ hname]
            exact h.1 n hn
        · intro n hn
          by_cases hname : n = name
          · have hserv : (dictGet st.servers name).isSome = true :=
              hsub (name, h0) (List.mem_cons_self _ _)
            have htool := h.1 name hserv
            have := h.2.1 name htool
            rw [hname]
            exact hasAddCall_mono _ this
          · rw [dictGet_dictSet_ne _ _ _ _ hname] at hn
            exact hasAddCall_mono _ (h.2.1 n hn)
        · intro n ts hn
          by_cases hname : n = name
          · rw [hname] at hn ⊢
            rw [dictGet_dictSet_self] at hn
            have hts : ts = ts0 := (Option.some_inj.mp hn).symm
            rw [hts]
            exact lastFetch_append_fetched name _ ts0
          · rw [dictGet_dictSet_ne _ _ _ _ hname] at hn
            rw [lastFetch_append_of_none n _ _
              (by simp [hname])]
            exact h.2.2 n ts hn

theorem inv_refresh (beh : String → Except Err (List Tool)) (st : State)
    (h : RegInv st) : RegInv (refresh_tools beh st) := by
  unfold refresh_tools
  apply inv_refreshGo beh st.servers st ?_ h
  intro p hp
  exact dictGet_isSome_of_mem (by simpa using hp)

theorem closeGo_tools (beh : String → ShutBeh)
    (l : List (String × Handle)) (st : State) :
    (closeGo beh l st).tools = st.tools := by
  induction l generalizing st with
  | nil => rfl
  | cons p rest ih =>
    obtain ⟨name, h0⟩ := p
    simp only [closeGo]
    rw [ih]

theorem closeGo_servers (beh : String → ShutBeh)
    (l : List (String × Handle)) (st : State)
    (h : ∀ p ∈ st.servers, p.1 ∈ l.map Prod.fst) :
    (closeGo beh l st).servers = [] := by
  induction l generalizing st with
  | nil =>
    cases hs : st.servers with
    | nil => simpa [closeGo] using hs
    | cons q qrest =>
      exfalso
      have := h q (by rw [hs]; exact List.mem_cons_self _ _)
      simp at this
  | cons p rest ih =>
    obtain ⟨name, h0⟩ := p
    simp only [closeGo]
    apply ih
    intro q hq
    have hmem := mem_of_mem_dictDel hq
    have := h q hmem.1
    simp only [List.map_cons] at this
    rcases List.mem_cons.mp this with h1 | h2
    · exact absurd h1 hmem.2
    · exact h2

theorem close_servers_nil (beh : String → ShutBeh) (st : State) :
    (close beh st).servers = [] := by
  unfold close
  simp only
  apply closeGo_servers
  intro p hp
  exact List.mem_map_of_mem Prod.fst hp

theorem close_tools_nil (beh : String → ShutBeh) (st : State) :
    (close beh st).tools = [] := rfl

theorem inv_close (beh : String → ShutBeh) (st : State) :
    RegInv (close beh st) := by
  refine ⟨?_, ?_, ?_⟩
  · intro n hn
    rw [close_servers_nil] at hn
    simp [dictGet] at hn
  · intro n hn
    rw [close_tools_nil] at hn
    simp [dictGet] at hn
  · intro n ts hn
    rw [close_tools_nil] at hn
    simp [dictGet] at hn

theorem inv_step {st st2 : State} (h : Step st st2) (hInv : RegInv st) :
    RegInv st2 := by
  cases h with
  | load path res => exact inv_load path res st hInv
  | init loadRes beh => exact inv_initialize loadRes beh st hInv
  | add c f name hd => exact inv_add c f name hd st hInv
  | refresh beh => exact inv_refresh beh st hInv
  | closeStep beh => exact inv_close beh st

theorem reachable_inv {st : State} (h : Reachable st) : RegInv st := by
  induction h with
  | refl => exact inv_initState
  | tail hab hbc ih => exact inv_step hbc ih

/-! ### Further helper lemmas for the individual operations -/


theorem add_server_other (c : Option Err) (f : Except Err (List Tool))
    (name : String) (hd : Handle) (st : State) (n : String) (hne : n ≠ name) :
    dictGet (add_server c f name hd st).1.servers n = dictGet st.servers n ∧
    dictGet (add_server c f name hd st).1.tools n = dictGet st.tools n := by
  cases c with
  | some e =>
    rw [add_server_connect_fail]
    exact ⟨dictGet_dictDel_ne _ _ _ hne, rfl⟩
  | none =>
    cases f with
    | error e =>
      rw [add_server_fetch_fail]
      refine ⟨?_, rfl⟩
      rw [dictGet_dictDel_ne _ _ _ hne]
      exact dictGet_dictSet_ne _ _ _ _ hne
    | ok ts =>
      rw [add_server_ok]
      exact ⟨dictGet_dictSet_ne _ _ _ _ hne, dictGet_dictSet_ne _ _ _ _ hne⟩

theorem initGo_other (beh : String → EntryBeh)
    (entries : List (String × ServerEntry)) (st : State) (n : String)
    (hn : n ∉ entries.map Prod.fst) :
    dictGet (initGo beh entries st).1.servers n = dictGet st.servers n ∧
    dictGet (initGo beh entries st).1.tools n = dictGet st.tools n := by
  induction entries generalizing st with
  | nil => exact ⟨rfl, rfl⟩
  | cons p rest ih =>
    obtain ⟨name, entry⟩ := p
    have hnname : n ≠ name := by
      intro hcontra
      exact hn (by simp [hcontra])
    have hnrest : n ∉ rest.map Prod.fst := by
      intro hcontra
      exact hn (by simp [hcontra])
    cases hp : entry.params with
    | none => simp [initGo, hp]
    | some prm =>
      simp only [initGo, hp]
      have hstep := add_server_other (beh name).connect (beh name).fetch name
        (mkHandle name entry) st n hnname
      have hrest := ih ((add_server (beh name).connect (beh name).fetch name
        (mkHandle name entry) st).1) hnrest
      exact ⟨hrest.1.trans hstep.1, hrest.2.trans hstep.2⟩

theorem initGo_no_raise (beh : String → EntryBeh)
    (entries : List (String × ServerEntry)) (st : State)
    (h : ∀ p ∈ entries, (p.2.params).isSome = true) :
    (initGo beh entries st).2 = none := by
  induction entries generalizing st with
  | nil => rfl
  | cons p rest ih =>
    obtain ⟨name, entry⟩ := p
    have hhead := h (name, entry) (List.mem_cons_self _ _)
    cases hp : entry.params with
    | none => simp [hp] at hhead
    | some prm =>
      simp only [initGo, hp]
      exact ih _ (fun q hq => h q (List.mem_cons_of_mem _ hq))

theorem initGo_success_mem (beh : String → EntryBeh)
    (entries : List (String × ServerEntry)) (st : State)
    (hparams : ∀ p ∈ entries, (p.2.params).isSome = true)
    (hnd : (entries.map Prod.fst).Nodup)
    (p : String × ServerEntry) (hp : p ∈ entries)
    (hc : (beh p.1).connect = none) (hf : exOk (beh p.1).fetch = true) :
    (dictGet (initGo beh entries st).1.servers p.1).isSome = true := by
  induction entries generalizing st with
  | nil => simp at hp
  | cons q rest ih =>
    obtain ⟨name, entry⟩ := q
    have hhead : entry.params.isSome = true :=
      hparams (name, entry) (List.mem_cons_self _ _)
    obtain ⟨prm, hprm⟩ := Option.isSome_iff_exists.mp hhead
    have hnd2 : (rest.map Prod.fst).Nodup :=
      (List.nodup_cons.mp (by simpa using hnd)).2
    have hnotin : name ∉ rest.map Prod.fst :=
      (List.nodup_cons.mp (by simpa using hnd)).1
    rcases List.mem_cons.mp hp with h1 | h2
    · have hp1 : p.1 = name := by rw [h1]
      have hc2 : (beh name).connect = none := by rw [← hp1]; exact hc
      have hf2 : exOk (beh name).fetch = true := by rw [← hp1]; exact hf
      simp only [initGo, hprm]
      cases hfet : (beh name).fetch with
      | error e => rw [hfet] at hf2; simp [exOk] at hf2
      | ok ts =>
        rw [hc2, add_server_ok_fst, hp1]
        rw [(initGo_other beh rest _ name hnotin).1]
        simp [dictGet_dictSet_self]
    · simp only [initGo, hprm]
      exact ih ((add_server (beh name).connect (beh name).fetch name
          (mkHandle name entry) st).1)
        (fun q hq => hparams q (List.mem_cons_of_mem _ hq)) hnd2 h2

theorem initGo_fresh (beh : String → EntryBeh)
    (entries : List (String × ServerEntry)) (st : State)
    (hall : ∀ p ∈ entries, (p.2.params).isSome = true ∧
      (beh p.1).connect = none ∧ exOk (beh p.1).fetch = true)
    (hnd : (entries.map Prod.fst).Nodup)
    (hfresh : ∀ p ∈ entries, dictGet st.servers p.1 = none ∧
      dictGet st.tools p.1 = none) :
    (initGo beh entries st).1.servers =
      st.servers ++ entries.map (fun p => (p.1, mkHandle p.1 p.2)) ∧
    (initGo beh entries st).1.tools =
      st.tools ++ entries.map (fun p => (p.1, exVal (beh p.1).fetch)) := by
  induction entries generalizing st with
  | nil => simp [initGo]
  | cons q rest ih =>
    obtain ⟨name, entry⟩ := q
    obtain ⟨hps, hcn, hok⟩ := hall (name, entry) (List.mem_cons_self _ _)
    have hps2 : entry.params.isSome = true := hps
    have hcn2 : (beh name).connect = none := hcn
    have hok2 : exOk (beh name).fetch = true := hok
    obtain ⟨prm, hprm⟩ := Option.isSome_iff_exists.mp hps2
    cases hfet : (beh name).fetch with
    | error e => rw [hfet] at hok2; simp [exOk] at hok2
    | ok ts =>
      obtain ⟨hfshead, hfthead⟩ := hfresh (name, entry) (List.mem_cons_self _ _)
      have hfs2 : dictGet st.servers name = none := hfshead
      have hft2 : dictGet st.tools name = none := hfthead
      have hnd2 : (rest.map Prod.fst).Nodup :=
        (List.nodup_cons.mp (by simpa using hnd)).2
      have hnotin : name ∉ rest.map Prod.fst :=
        (List.nodup_cons.mp (by simpa using hnd)).1
      simp only [initGo, hprm]
      rw [hcn2, hfet, add_server_ok_fst]
      have hrest := ih
        { st with
          servers := dictSet st.servers name (mkHandle name entry),
          tools := dictSet st.tools name ts,
          events := st.events ++
            [Event.addCall name, Event.fetched name ts] }
        (fun q hq => hall q (List.mem_cons_of_mem _ hq))
        hnd2
        (by
          intro q hq
          have hqname : q.1 ≠ name := by
            intro hcontra
            exact hnotin (hcontra ▸ List.mem_map_of_mem Prod.fst hq)
          have hqf := hfresh q (List.mem_cons_of_mem _ hq)
          constructor
          · show dictGet (dictSet st.servers name (mkHandle name entry))
              q.1 = none
            rw [dictGet_dictSet_ne _ _ _ _ hqname]
            exact hqf.1
          · show dictGet (dictSet st.tools name ts) q.1 = none
            rw [dictGet_dictSet_ne _ _ _ _ hqname]
            exact hqf.2)
      constructor
      · rw [hrest.1]
        show dictSet st.servers name (mkHandle name entry) ++
          rest.map (fun p => (p.1, mkHandle p.1 p.2)) = _
        rw [dictSet_of_none st.servers name (mkHandle name entry) hfs2]
        simp [List.append_assoc]
      · rw [hrest.2]
        show dictSet st.tools name ts ++
          rest.map (fun p => (p.1, exVal (beh p.1).fetch)) = _
        rw [dictSet_of_none st.tools name ts hft2]
        simp [hfet, exVal, List.append_assoc]

theorem initialize_servers_loaded (loadRes : Except Err PyConfig)
    (beh : String → EntryBeh) (st : State)
    (entries : List (String × ServerEntry)) (ex : Nat)
    (hcfg : st.config = PyConfig.pydict (some entries) ex) :
    initialize_servers loadRes beh st = initGo beh entries st := by
  unfold initialize_servers
  simp [hcfg, PyConfig.isTruthy]

theorem initialize_servers_falsy (beh : String → EntryBeh) (st : State)
    (s : Option (List (String × ServerEntry))) (ex : Nat)
    (hf : st.config.isTruthy = false) :
    initialize_servers (Except.ok (PyConfig.pydict s ex)) beh st =
      initGo beh (s.getD [])
        { st with config := PyConfig.pydict s ex,
                  events := st.events ++ [Event.loadConfig none] } := by
  unfold initialize_servers
  rw [hf]
  simp [load_config_ok]

theorem initialize_servers_falsy_some (beh : String → EntryBeh) (st : State)
    (entries : List (String × ServerEntry)) (ex : Nat)
    (hf : st.config.isTruthy = false) :
    initialize_servers (Except.ok (PyConfig.pydict (some entries) ex)) beh st =
      initGo beh entries
        { st with config := PyConfig.pydict (some entries) ex,
                  events := st.events ++ [Event.loadConfig none] } := by
  rw [initialize_servers_falsy beh st (some entries) ex hf]
  rfl

theorem refreshGo_servers (beh : String → Except Err (List Tool))
    (l : List (String × Handle)) (st : State) :
    (refreshGo beh l st).servers = st.servers := by
  induction l generalizing st with
  | nil => rfl
  | cons p rest ih =>
    obtain ⟨name, h0⟩ := p
    cases hb : beh name with
    | error e => simp only [refreshGo, hb]; exact ih st
    | ok ts => simp only [refreshGo, hb]; rw [ih]

theorem refreshGo_tools_err (beh : String → Except Err (List Tool))
    (l : List (String × Handle)) (st : State) (name : String) (e : Err)
    (hb : beh name = Except.error e) :
    dictGet (refreshGo beh l st).tools name = dictGet st.tools name := by
  induction l generalizing st with
  | nil => rfl
  | cons p rest ih =>
    obtain ⟨n2, h2⟩ := p
    cases hb2 : beh n2 with
    | error e2 => simp only [refreshGo, hb2]; exact ih st
    | ok ts =>
      have hne : n2 ≠ name := by
        intro hcontra
        rw [hcontra, hb] at hb2
        cases hb2
      simp only [refreshGo, hb2]
      rw [ih]
      exact dictGet_dictSet_ne _ _ _ _ (fun hh => hne hh.symm)

theorem refreshGo_tools_other (beh : String → Except Err (List Tool))
    (l : List (String × Handle)) (st : State) (name : String)
    (hnl : name ∉ l.map Prod.fst) :
    dictGet (refreshGo beh l st).tools name = dictGet st.tools name := by
  induction l generalizing st with
  | nil => rfl
  | cons p rest ih =>
    obtain ⟨n2, h2⟩ := p
    have hne : name ≠ n2 := by
      intro hcontra
      exact hnl (by simp [hcontra])
    have hnrest : name ∉ rest.map Prod.fst := by
      intro hcontra
      exact hnl (by simp [hcontra])
    cases hb2 : beh n2 with
    | error e2 => simp only [refreshGo, hb2]; exact ih _ hnrest
    | ok ts =>
      simp only [refreshGo, hb2]
      rw [ih _ hnrest]
      exact dictGet_dictSet_ne _ _ _ _ hne

theorem refreshGo_tools_ok (beh : String → Except Err (List Tool))
    (l : List (String × Handle)) (st : State) (name : String)
    (ts : List Tool) (hb : beh name = Except.ok ts)
    (hmem : ∃ hd, (name, hd) ∈ l) :
    dictGet (refreshGo beh l st).tools name = some ts := by
  induction l generalizing st with
  | nil =>
    obtain ⟨hd, hmem⟩ := hmem
    simp at hmem
  | cons p rest ih =>
    obtain ⟨n2, h2⟩ := p
    by_cases hname : n2 = name
    · subst hname
      simp only [refreshGo, hb]
      by_cases hrest : n2 ∈ rest.map Prod.fst
      · obtain ⟨q, hq, hq1⟩ := List.mem_map.mp hrest
        refine ih _ ⟨q.2, ?_⟩
        have : q = (n2, q.2) := by
          ext
          · rw [hq1]
          · rfl
        rw [this] at hq
        exact hq
      · rw [refreshGo_tools_other beh rest _ n2 hrest]
        exact dictGet_dictSet_self _ _ _
    · obtain ⟨hd, hmem2⟩ := hmem
      rcases List.mem_cons.mp hmem2 with h1 | h2m
      · exfalso
        apply hname
        exact (Prod.mk.injEq _ _ _ _ ▸ h1).1.symm ▸ rfl
      · cases hb2 : beh n2 with
        | error e2 => simp only [refreshGo, hb2]; exact ih _ ⟨hd, h2m⟩
        | ok ts2 => simp only [refreshGo, hb2]; exact ih _ ⟨hd, h2m⟩

/-! ### Claim theorems -/

/-- C1, counterexample to the claim as stated: in a configuration whose first
entry `a` lacks the `params` key, processing that entry fails at the
handle-construction step (line 31 indexes `server_config['params']` outside
the `try` block), `initialize_servers` raises `KeyError`, and the remaining
valid entry `b` is never initialized — so a per-entry failure is not always
caught and the remaining entries do not always proceed. -/
theorem claim_C1_counterexample :
    (initialize_servers (Except.ok cfgC1) behC1 initState).2 =
      some Err.keyError ∧
    get_server "b" (initialize_servers (Except.ok cfgC1) behC1 initState).1 =
      none := by
  exact ⟨by decide, by decide⟩

/-- C1, amended: when every entry of the loaded configuration carries its
`params` key (so handle construction cannot fail), `initialize_servers`
never raises, and every entry whose connect and initial tool fetch both
succeed ends up registered, no matter how many other entries failed to
connect or fetch — those failures are caught inside the loop and skipped. -/
theorem claim_C1_amended (loadRes : Except Err PyConfig)
    (beh : String → EntryBeh) (st : State)
    (entries : List (String × ServerEntry)) (ex : Nat)
    (hcfg : st.config = PyConfig.pydict (some entries) ex)
    (hparams : ∀ p ∈ entries, (p.2.params).isSome = true)
    (hnd : (entries.map Prod.fst).Nodup) :
    (initialize_servers loadRes beh st).2 = none ∧
    ∀ p ∈ entries, (beh p.1).connect = none → exOk (beh p.1).fetch = true →
      (get_server p.1 (initialize_servers loadRes beh st).1).isSome = true := by
  rw [initialize_servers_loaded loadRes beh st entries ex hcfg]
  constructor
  · exact initGo_no_raise beh entries st hparams
  · intro p hp hc hf
    exact initGo_success_mem beh entries st hparams hnd p hp hc hf

/-- C1, witness: with entries `a` (succeeds) and `c` (connect fails),
`initialize_servers` returns normally and `a` is registered. -/
theorem claim_C1_witness :
    (initialize_servers (Except.ok PyConfig.pynone) behC1w stC1w).2 = none ∧
    (get_server "a"
      (initialize_servers (Except.ok PyConfig.pynone) behC1w stC1w).1).isSome =
      true := by
  have h := claim_C1_amended (Except.ok PyConfig.pynone) behC1w stC1w
    entriesC1 0 rfl (by decide) (by decide)
  refine ⟨h.1, ?_⟩
  exact h.2 ("a", entryC1a) (by decide) (by decide) (by decide)

/-- C2, amended: in every reachable state, a name registered in the handles
mapping has a tool-cache entry; and when a connect step fails in
`add_server`, the name is afterwards absent from the handles mapping, and
absent from the tool-cache mapping provided it had no cached entry before
the call (a stale cache entry left by an earlier successful registration of
the same name persists — see the counterexample). -/
theorem claim_C2_amended (st : State) (h : Reachable st) :
    (∀ n, (dictGet st.servers n).isSome = true →
      (dictGet st.tools n).isSome = true) ∧
    (∀ n (hd : Handle) (e : Err) (f : Except Err (List Tool)),
      dictGet (add_server (some e) f n hd st).1.servers n = none ∧
      (dictGet st.tools n = none →
        dictGet (add_server (some e) f n hd st).1.tools n = none)) := by
  have hInv := reachable_inv h
  refine ⟨hInv.1, ?_⟩
  intro n hd e f
  rw [add_server_connect_fail_fst]
  exact ⟨dictGet_dictDel_self _ _, fun hnone => hnone⟩

/-- C2, witness: on the fresh registry, a failed connect for `x` leaves `x`
out of the handles mapping. -/
theorem claim_C2_witness :
    dictGet (add_server (some (Err.connectFail 0)) (Except.ok []) "x"
      someHandle initState).1.servers "x" = none :=
  ((claim_C2_amended initState Relation.ReflTransGen.refl).2 "x" someHandle
    (Err.connectFail 0) (Except.ok [])).1

/-- C2, counterexample to the claim as stated: after a successful
registration of `x` (reachable state `stC2`), a second `add_server` for `x`
whose connect fails leaves `x` registered in neither... in fact it leaves
`x` absent from the handles mapping but still present in the tool-cache
mapping with its stale list `[1]`, contradicting the claim that a server
whose connect failed appears in neither mapping. -/
theorem claim_C2_counterexample :
    Reachable (add_server (some (Err.connectFail 0)) (Except.ok []) "x"
      someHandle stC2).1 ∧
    get_server "x" (add_server (some (Err.connectFail 0)) (Except.ok []) "x"
      someHandle stC2).1 = none ∧
    get_server_tools "x" (add_server (some (Err.connectFail 0))
      (Except.ok []) "x" someHandle stC2).1 = some [1] := by
  refine ⟨?_, by decide, by decide⟩
  exact Relation.ReflTransGen.tail
    (Relation.ReflTransGen.tail Relation.ReflTransGen.refl
      (Step.add initState none (Except.ok [1]) "x" someHandle))
    (Step.add stC2 (some (Err.connectFail 0)) (Except.ok []) "x" someHandle)

/-- C3: when `add_server` fails — the connect step raises `e`, or connect
succeeds and the initial tool fetch raises `e` — the call re-raises exactly
`e` to its caller and the name is afterwards absent from the handles
mapping, so `get_server` returns `none`. -/
theorem claim_C3 (st : State) (name : String) (hd : Handle) (c : Option Err)
    (f : Except Err (List Tool)) (e : Err)
    (hfail : c = some e ∨ (c = none ∧ f = Except.error e)) :
    (add_server c f name hd st).2 = some e ∧
    get_server name (add_server c f name hd st).1 = none := by
  rcases hfail with h1 | ⟨h1, h2⟩
  · subst h1
    rw [add_server_connect_fail]
    exact ⟨rfl, dictGet_dictDel_self _ _⟩
  · subst h1
    subst h2
    rw [add_server_fetch_fail]
    exact ⟨rfl, dictGet_dictDel_self _ _⟩

/-- C3, witness: a failed connect for `x` on the fresh registry re-raises
the connect error and leaves `getServer "x"` absent. -/
theorem claim_C3_witness :
    (add_server (some (Err.connectFail 3)) (Except.ok []) "x" someHandle
      initState).2 = some (Err.connectFail 3) ∧
    get_server "x" (add_server (some (Err.connectFail 3)) (Except.ok []) "x"
      someHandle initState).1 = none :=
  claim_C3 initState "x" someHandle _ _ _ (Or.inl rfl)

/-- C4: for every registry state and every combination of per-server
shutdown outcomes (cleanup raising, the forceful-termination fallback
raising, and so on — all of `ShutBeh` is universally quantified), `close`
returns (it is total by construction, every per-server exception being
caught inside the loop) and afterwards both the handles mapping and the
tool-cache mapping are empty. -/
theorem claim_C4 (beh : String → ShutBeh) (st : State) :
    (close beh st).servers = [] ∧ (close beh st).tools = [] :=
  ⟨close_servers_nil beh st, close_tools_nil beh st⟩

/-- C5: for a loaded configuration with `N` valid entries (distinct names,
`params` present) whose connect and tool-fetch steps all succeed,
`initialize_servers` on a fresh registry raises nothing and leaves exactly
`N` entries in the handles mapping and `N` non-absent tool-cache entries,
one per configured server. -/
theorem claim_C5 (entries : List (String × ServerEntry)) (ex : Nat)
    (beh : String → EntryBeh)
    (hnd : (entries.map Prod.fst).Nodup)
    (hall : ∀ p ∈ entries, (p.2.params).isSome = true ∧
      (beh p.1).connect = none ∧ exOk (beh p.1).fetch = true) :
    (initialize_servers (Except.ok (PyConfig.pydict (some entries) ex)) beh
      initState).2 = none ∧
    (initialize_servers (Except.ok (PyConfig.pydict (some entries) ex)) beh
      initState).1.servers.length = entries.length ∧
    (initialize_servers (Except.ok (PyConfig.pydict (some entries) ex)) beh
      initState).1.tools.length = entries.length ∧
    ∀ p ∈ entries, (get_server_tools p.1
      (initialize_servers (Except.ok (PyConfig.pydict (some entries) ex)) beh
        initState).1).isSome = true := by
  rw [initialize_servers_falsy_some beh initState entries ex rfl]
  have hfr := initGo_fresh beh entries
    { servers := initState.servers, tools := initState.tools,
      config := PyConfig.pydict (some entries) ex,
      events := initState.events ++ [Event.loadConfig none] }
    hall hnd (fun p hp => ⟨rfl, rfl⟩)
  refine ⟨?_, ?_, ?_, ?_⟩
  · exact initGo_no_raise beh entries _ (fun p hp => (hall p hp).1)
  · rw [hfr.1]
    simp [initState]
  · rw [hfr.2]
    simp [initState]
  · intro p hp
    show (dictGet (initGo beh entries _).1.tools p.1).isSome = true
    rw [hfr.2]
    show (dictGet (initState.tools ++
      entries.map (fun p => (p.1, exVal (beh p.1).fetch))) p.1).isSome = true
    show (dictGet ([] ++
      entries.map (fun p => (p.1, exVal (beh p.1).fetch))) p.1).isSome = true
    rw [List.nil_append]
    exact dictGet_isSome_of_mem
      (List.mem_map_of_mem (fun q => (q.1, exVal (beh q.1).fetch)) hp)

/-- C5, witness: two valid entries, both succeeding, give two registered
servers, two tool-cache entries, and a non-absent cache for `a`. -/
theorem claim_C5_witness :
    (initialize_servers (Except.ok (PyConfig.pydict (some entriesC5) 0))
      behC5 initState).2 = none ∧
    (initialize_servers (Except.ok (PyConfig.pydict (some entriesC5) 0))
      behC5 initState).1.servers.length = 2 ∧
    (initialize_servers (Except.ok (PyConfig.pydict (some entriesC5) 0))
      behC5 initState).1.tools.length = 2 ∧
    (get_server_tools "a"
      (initialize_servers (Except.ok (PyConfig.pydict (some entriesC5) 0))
        behC5 initState).1).isSome = true := by
  have h := claim_C5 entriesC5 0 behC5 (by decide) (by decide)
  exact ⟨h.1, h.2.1.trans (by decide), h.2.2.1.trans (by decide),
    h.2.2.2 ("a", entryC5a) (by decide)⟩

/-- C6: when the re-fetch for a registered server raises during
`refresh_tools`, the failure is swallowed (the call is total by
construction), the handles mapping is wholly unchanged (the server stays
registered), that server's cached tool list is exactly what it was before
the call, and every registered server whose re-fetch succeeds has its cache
replaced by the newly fetched list. -/
theorem claim_C6 (beh : String → Except Err (List Tool)) (st : State)
    (name : String) (hd : Handle) (e : Err)
    (hmem : (name, hd) ∈ st.servers) (hb : beh name = Except.error e) :
    (refresh_tools beh st).servers = st.servers ∧
    get_server_tools name (refresh_tools beh st) =
      get_server_tools name st ∧
    ∀ (n : String) (hd2 : Handle) (ts : List Tool), (n, hd2) ∈ st.servers →
      beh n = Except.ok ts →
      get_server_tools n (refresh_tools beh st) = some ts := by
  unfold refresh_tools
  refine ⟨refreshGo_servers beh st.servers st, ?_, ?_⟩
  · exact refreshGo_tools_err beh st.servers st name e hb
  · intro n hd2 ts hmem2 hbn
    exact refreshGo_tools_ok beh st.servers st n ts hbn ⟨hd2, hmem2⟩

/-- C6, witness: with `a` failing and `b` fetching `[9]`, refresh keeps the
handles mapping, keeps the stale cache `[1]` for `a`, and updates `b`. -/
theorem claim_C6_witness :
    (refresh_tools behC6 stC6).servers = stC6.servers ∧
    get_server_tools "a" (refresh_tools behC6 stC6) =
      get_server_tools "a" stC6 ∧
    get_server_tools "b" (refresh_tools behC6 stC6) = some [9] := by
  have h := claim_C6 behC6 stC6 "a" someHandle (Err.fetchFail 0)
    (by decide) (by rfl)
  exact ⟨h.1, h.2.1, h.2.2 "b" someHandle [9] (by decide) (by rfl)⟩

/-- C7: in every reachable state, `get_server_tools` (a pure lookup in the
tool cache, performing no state change by construction) returns absent for
any name never passed to `add_server` — directly or through
`initialize_servers`, both of which record an `addCall` event — and
whenever it returns a list, that list is exactly the tool list of the
chronologically last successful fetch recorded for that name. -/
theorem claim_C7 (st : State) (name : String) (h : Reachable st) :
    (hasAddCall name st.events = false → get_server_tools name st = none) ∧
    (∀ ts, get_server_tools name st = some ts →
      lastFetch name st.events = some ts) := by
  have hInv := reachable_inv h
  constructor
  · intro hno
    cases hget : get_server_tools name st with
    | none => rfl
    | some ts =>
      have hsome : (dictGet st.tools name).isSome = true := by
        unfold get_server_tools at hget
        rw [hget]
        rfl
      have hcall := hInv.2.1 name hsome
      rw [hno] at hcall
      exact Bool.noConfusion hcall
  · intro ts hget
    exact hInv.2.2 name ts hget

/-- C7, witness: an unregistered name yields absent on the fresh registry,
and after one successful `add_server` the cached list for `x` is the list
of its (only) recorded fetch. -/
theorem claim_C7_witness :
    get_server_tools "y" initState = none ∧
    lastFetch "x"
      ((add_server none (Except.ok [3]) "x" someHandle initState).1.events) =
      some [3] := by
  constructor
  · exact (claim_C7 initState "y" Relation.ReflTransGen.refl).1 (by decide)
  · refine (claim_C7 ((add_server none (Except.ok [3]) "x" someHandle
      initState).1) "x" ?_).2 [3] (by decide)
    exact Relation.ReflTransGen.tail Relation.ReflTransGen.refl
      (Step.add initState none (Except.ok [3]) "x" someHandle)

/-- C8: a configuration entry that omits `cache_tools_list` yields a handle
constructed with the tool-list-caching flag `true` (the `.get` default on
source line 36), and when that entry is processed by the initialization
loop, exactly this handle is what gets registered. -/
theorem claim_C8 (st : State) (beh : String → EntryBeh) (name : String)
    (entry : ServerEntry) (prm : ServerParams) (ts : List Tool)
    (hcache : entry.cache_tools_list = none) (hp : entry.params = some prm)
    (hc : (beh name).connect = none) (hf : (beh name).fetch = Except.ok ts) :
    (mkHandle name entry).cacheToolsList = true ∧
    get_server name (initGo beh [(name, entry)] st).1 =
      some (mkHandle name entry) := by
  constructor
  · simp [mkHandle, hcache]
  · simp only [initGo, hp]
    rw [hc, hf]
    simp only [add_server_ok_fst]
    exact dictGet_dictSet_self _ _ _

/-- C8, witness: the concrete entry `entryC8` (no `cache_tools_list` key)
is registered with the caching flag set. -/
theorem claim_C8_witness :
    (mkHandle "s" entryC8).cacheToolsList = true ∧
    get_server "s" (initGo behC8 [("s", entryC8)] initState).1 =
      some (mkHandle "s" entryC8) :=
  claim_C8 initState behC8 "s" entryC8
    { command := "c8", args := [] } [6] rfl rfl rfl rfl

/-- C9: when `name` is already registered with a handle and a cached tool
list and a second `add_server name` fails (connect error, or connect
success followed by a fetch error), the old handle is removed from the
handles mapping while the old cached list survives — `get_server`
returns absent while `get_server_tools` still returns the stale list — and
the call performs no cleanup: the only event it records is its own
`addCall`. -/
theorem claim_C9 (st : State) (name : String) (oldH : Handle)
    (oldTs : List Tool) (hd : Handle) (c : Option Err)
    (f : Except Err (List Tool)) (e : Err)
    (hs : get_server name st = some oldH)
    (ht : get_server_tools name st = some oldTs)
    (hfail : c = some e ∨ (c = none ∧ f = Except.error e)) :
    get_server name (add_server c f name hd st).1 = none ∧
    get_server_tools name (add_server c f name hd st).1 = some oldTs ∧
    (add_server c f name hd st).1.events =
      st.events ++ [Event.addCall name] := by
  rcases hfail with h1 | ⟨h1, h2⟩
  · subst h1
    rw [add_server_connect_fail_fst]
    exact ⟨dictGet_dictDel_self _ _, ht, rfl⟩
  · subst h1
    subst h2
    rw [add_server_fetch_fail_fst]
    exact ⟨dictGet_dictDel_self _ _, ht, rfl⟩

/-- C9, witness: after registering `x` with tools `[4]`, a failed re-add of
`x` leaves `get_server` absent, the stale `[4]` cached, and no shutdown
events. -/
theorem claim_C9_witness :
    get_server "x" (add_server (some (Err.connectFail 2)) (Except.ok []) "x"
      someHandle stC9).1 = none ∧
    get_server_tools "x" (add_server (some (Err.connectFail 2))
      (Except.ok []) "x" someHandle stC9).1 = some [4] ∧
    (add_server (some (Err.connectFail 2)) (Except.ok []) "x" someHandle
      stC9).1.events = stC9.events ++ [Event.addCall "x"] :=
  claim_C9 stC9 "x" someHandle [4] someHandle _ _ _ (by decide) (by decide)
    (Or.inl rfl)

/-- C10: the staleness check on source line 25 is `if not self._config:`, so
a configuration that was explicitly loaded but parsed to the empty dict is
indistinguishable from no configuration at all — `initialize_servers`
performs a second `load_config` with the default path, replaces the stored
empty configuration with the newly loaded one, and iterates the new
configuration's server entries. -/
theorem claim_C10 (st0 : State) (p : String) (beh : String → EntryBeh)
    (s : Option (List (String × ServerEntry))) (ex : Nat) :
    initialize_servers (Except.ok (PyConfig.pydict s ex)) beh
        (load_config (some p) (Except.ok (PyConfig.pydict none 0)) st0).1 =
      initGo beh (s.getD [])
        { st0 with config := PyConfig.pydict s ex,
                   events := (st0.events ++ [Event.loadConfig (some p)]) ++
                     [Event.loadConfig none] } := by
  rw [load_config_ok]
  exact initialize_servers_falsy beh
    { st0 with config := PyConfig.pydict none 0,
               events := st0.events ++ [Event.loadConfig (some p)] }
    s ex rfl
